import Mathlib

/-!
# URL shortener (`main.go`): a shallow embedding and its verified properties

The Go program is a single file.  Its handlers talk to a MongoDB collection through
`mgo`; here the collection is an explicit value (`World.docs`) threaded through every
store call, together with a schedule of store failures (`World.faults`) and a log of
the store calls performed (`World.calls`).

Conventions
* a Go `string` is its sequence of bytes, `List Nat` (each byte a natural below 256);
  `len` is `List.length`, `s[i:j]` is `goSlice s i j`;
* a Go `int` is an `Int` reduced to the 64-bit two's complement range by `wrapInt`;
* a redirect response is its status and its `Location` header as `http.Redirect`
  computes it from the target and the request path;
* `log.Printf` calls and the per-call `session.Clone()`/`Close()` have no effect on
  the modelled state and are left out.
-/

namespace UrlShortener

/-! ## Go strings -/

/-- A Go string: an immutable sequence of bytes. -/
abbrev GoString := List Nat

/-- The bytes of an ASCII literal. -/
def ascii (s : String) : GoString := s.data.map Char.toNat

/-- Go slice expression `s[i:j]` for `i ≤ j ≤ len(s)`. -/
def goSlice (s : GoString) (i j : Nat) : GoString := (s.drop i).take (j - i)

/-! ## Go `int` -/

/-- Width of the Go `int` type on the 64-bit targets the service is built for. -/
def intBits : Nat := 64

/-- Largest value of a Go `int`. -/
def maxInt : Int := 2 ^ (intBits - 1) - 1

/-- Smallest value of a Go `int`. -/
def minInt : Int := -(2 ^ (intBits - 1))

/-- Two's complement reduction of an integer to the range of a Go `int`. -/
def wrapInt (x : Int) : Int := (x + 2 ^ (intBits - 1)) % 2 ^ intBits - 2 ^ (intBits - 1)

/-! ## `crypto/md5` and `encoding/hex` -/

namespace MD5

/-- Reduction to a 32-bit word. -/
def w32 (x : Nat) : Nat := x % 4294967296

/-- Rotate a 32-bit word left by `c` bits. -/
def rotl (x c : Nat) : Nat := w32 ((x <<< c) ||| (x >>> (32 - c)))

/-- Bitwise complement of a 32-bit word. -/
def not32 (x : Nat) : Nat := 4294967295 - w32 x

/-- Per-round shift amounts. -/
def shifts : List Nat :=
  [7, 12, 17, 22, 7, 12, 17, 22, 7, 12, 17, 22, 7, 12, 17, 22,
   5, 9, 14, 20, 5, 9, 14, 20, 5, 9, 14, 20, 5, 9, 14, 20,
   4, 11, 16, 23, 4, 11, 16, 23, 4, 11, 16, 23, 4, 11, 16, 23,
   6, 10, 15, 21, 6, 10, 15, 21, 6, 10, 15, 21, 6, 10, 15, 21]

/-- Per-round additive constants, `floor (2^32 * |sin (i + 1)|)`. -/
def sines : List Nat :=
  [0xd76aa478, 0xe8c7b756, 0x242070db, 0xc1bdceee,
   0xf57c0faf, 0x4787c62a, 0xa8304613, 0xfd469501,
   0x698098d8, 0x8b44f7af, 0xffff5bb1, 0x895cd7be,
   0x6b901122, 0xfd987193, 0xa679438e, 0x49b40821,
   0xf61e2562, 0xc040b340, 0x265e5a51, 0xe9b6c7aa,
   0xd62f105d, 0x02441453, 0xd8a1e681, 0xe7d3fbc8,
   0x21e1cde6, 0xc33707d6, 0xf4d50d87, 0x455a14ed,
   0xa9e3e905, 0xfcefa3f8, 0x676f02d9, 0x8d2a4c8a,
   0xfffa3942, 0x8771f681, 0x6d9d6122, 0xfde5380c,
   0xa4beea44, 0x4bdecfa9, 0xf6bb4b60, 0xbebfbc70,
   0x289b7ec6, 0xeaa127fa, 0xd4ef3085, 0x04881d05,
   0xd9d4d039, 0xe6db99e5, 0x1fa27cf8, 0xc4ac5665,
   0xf4292244, 0x432aff97, 0xab9423a7, 0xfc93a039,
   0x655b59c3, 0x8f0ccc92, 0xffeff47d, 0x85845dd1,
   0x6fa87e4f, 0xfe2ce6e0, 0xa3014314, 0x4e0811a1,
   0xf7537e82, 0xbd3af235, 0x2ad7d2bb, 0xeb86d391]

/-- The four chaining words. -/
structure Digest where
  a : Nat
  b : Nat
  c : Nat
  d : Nat
deriving DecidableEq, Repr

/-- Initial chaining value. -/
def init : Digest := ⟨0x67452301, 0xefcdab89, 0x98badcfe, 0x10325476⟩

/-- Little-endian bytes of a 32-bit word. -/
def le32 (x : Nat) : List Nat :=
  [x % 256, (x / 256) % 256, (x / 65536) % 256, (x / 16777216) % 256]

/-- Little-endian bytes of a 64-bit length. -/
def le64 (x : Nat) : List Nat := le32 (w32 x) ++ le32 (w32 (x / 4294967296))

/-- The `j`-th little-endian 32-bit word of a block. -/
def word (block : List Nat) (j : Nat) : Nat :=
  block.getD (4 * j) 0 % 256 + 256 * (block.getD (4 * j + 1) 0 % 256)
    + 65536 * (block.getD (4 * j + 2) 0 % 256) + 16777216 * (block.getD (4 * j + 3) 0 % 256)

/-- Message padding: a one bit, zeros up to 56 modulo 64, then the bit length. -/
def pad (msg : List Nat) : List Nat :=
  msg ++ [128] ++ List.replicate ((119 - msg.length % 64) % 64) 0 ++ le64 (8 * msg.length)

/-- One of the 64 operations on the working state. -/
def step (block : List Nat) (s : Digest) (i : Nat) : Digest :=
  let f :=
    if i < 16 then (s.b &&& s.c) ||| (not32 s.b &&& s.d)
    else if i < 32 then (s.d &&& s.b) ||| (not32 s.d &&& s.c)
    else if i < 48 then s.b ^^^ s.c ^^^ s.d
    else s.c ^^^ (s.b ||| not32 s.d)
  let g :=
    if i < 16 then i
    else if i < 32 then (5 * i + 1) % 16
    else if i < 48 then (3 * i + 5) % 16
    else (7 * i) % 16
  let t := w32 (f + s.a + sines.getD i 0 + word block g)
  ⟨s.d, w32 (s.b + rotl t (shifts.getD i 0)), s.b, s.c⟩

/-- Compression of one 64-byte block into the chaining value. -/
def compress (h : Digest) (block : List Nat) : Digest :=
  let s := (List.range 64).foldl (step block) h
  ⟨w32 (h.a + s.a), w32 (h.b + s.b), w32 (h.c + s.c), w32 (h.d + s.d)⟩

/-- The function `md5.Sum`: the 16 bytes of the MD5 checksum of the data. -/
def Sum (data : List Nat) : List Nat :=
  let p := pad data
  let h := (List.range (p.length / 64)).foldl
    (fun h k => compress h ((p.drop (64 * k)).take 64)) init
  le32 h.a ++ le32 h.b ++ le32 h.c ++ le32 h.d

end MD5

/-- The lower-case hexadecimal digit of a value below 16, as a byte. -/
def hexDigit (n : Nat) : Nat := if n < 10 then 48 + n else 87 + n

/-- The function `hex.EncodeToString`: two lower-case hexadecimal digits per byte. -/
def hexEncodeToString : List Nat → GoString
  | [] => []
  | b :: bs => hexDigit (b % 256 / 16) :: hexDigit (b % 16) :: hexEncodeToString bs

/-- The function `getMD5`: hexadecimal text of the MD5 checksum of the URL. -/
def getMD5 (url : GoString) : GoString :=
  let uh := MD5.Sum url
  let us := hexEncodeToString uh
  us

/-! ## Data model -/

/-- The opaque caller-supplied `interface{}` value; `none` is the nil interface, and a
present value is carried as its encoded bytes, never inspected. -/
abbrev Metadata := Option GoString

/-- The record `shortURL`.  The `omitempty` tags drop a zero hit count and a nil metadata
value when the record is written and decoding restores them, so a stored document is the
record itself. -/
structure shortURL where
  ID : GoString
  URL : GoString
  HitCount : Int
  Metadata : Metadata
deriving DecidableEq, Repr

/-- The request body `shortenRequest`. -/
structure shortenRequest where
  URL : GoString
  Metadata : Metadata
deriving DecidableEq, Repr

/-- Errors produced by the store driver. -/
inductive MgoError where
  | ErrNotFound
  | DuplicateKey
  | Unavailable
deriving DecidableEq, Repr

/-- Go `error` values seen by the handlers: the sentinel `errInvalidID` of this
program, which no store call can return, or an error of the store driver. -/
inductive GoError where
  | errInvalidID
  | mgo (e : MgoError)
deriving DecidableEq, Repr

deriving instance DecidableEq for Except

/-- The value `mgo.Index`, restricted to the fields that decide what an insert accepts. -/
structure Index where
  Key : List String
  Unique : Bool
deriving DecidableEq, Repr

/-- A call made on the collection, as logged in `World.calls`. -/
inductive StoreCall where
  | findID (id : GoString)
  | findURL (url : GoString)
  | insert (doc : shortURL)
  | updateId (id : GoString) (doc : shortURL)
  | ensureIndex (ix : Index)
deriving DecidableEq, Repr

/-- The collection and its environment.
* `docs`: the documents, in natural order;
* `indexes`: the secondary indexes created so far;
* `faults`: for each coming store call in turn, `some e` when the call fails with `e`
  without touching the documents (I/O failure, time-out, a stubbed rejection), `none`
  when the store answers from its documents; an exhausted schedule means no failure;
* `calls`: the store calls performed, oldest first. -/
structure World where
  docs : List shortURL
  indexes : List Index
  faults : List (Option MgoError)
  calls : List StoreCall
deriving DecidableEq, Repr

/-- The failure scheduled for the next store call. -/
def nextFault : List (Option MgoError) → Option MgoError
  | [] => none
  | f :: _ => f

/-- Start of a store call: log it and take the scheduled failure, if any. -/
def World.call (w : World) (c : StoreCall) : World × Option MgoError :=
  ({ w with faults := w.faults.tail, calls := w.calls ++ [c] }, nextFault w.faults)

/-- Value of a document field named in an index key. -/
def fieldValue (d : shortURL) (k : String) : Option GoString :=
  if k = "_id" then some d.ID else if k = "url" then some d.URL else none

/-- Whether inserting `obj` next to `docs` breaks the uniqueness demanded by index `ix`. -/
def violates (docs : List shortURL) (obj : shortURL) (ix : Index) : Bool :=
  ix.Unique && docs.any (fun d => ix.Key.map (fieldValue d) == ix.Key.map (fieldValue obj))

/-- Replace the first document whose `_id` is `id`. -/
def replaceId (id : GoString) (obj : shortURL) : List shortURL → List shortURL
  | [] => []
  | d :: ds => if d.ID = id then obj :: ds else d :: replaceId id obj ds

/-- The query `Find(bson.M{field: value}).One(&su)`. -/
def findOne (w : World) (c : StoreCall) (p : shortURL → Bool) : World × Except GoError shortURL :=
  let (w1, f) := w.call c
  match f with
  | some e => (w1, .error (.mgo e))
  | none =>
    match w.docs.find? p with
    | some su => (w1, .ok su)
    | none => (w1, .error (.mgo .ErrNotFound))

/-! ## Store access functions of `main.go` -/

/-- The function `getURIDetailsByID`. -/
def getURIDetailsByID (w : World) (id : GoString) : World × Except GoError shortURL :=
  if id.length ≠ 8 then (w, .error .errInvalidID)
  else findOne w (.findID id) (fun d => d.ID == id)

/-- The function `getURIDetailsByURL`. -/
def getURIDetailsByURL (w : World) (url : GoString) : World × Except GoError shortURL :=
  findOne w (.findURL url) (fun d => d.URL == url)

/-- Whether the collection refuses `obj` as a duplicate: its `_id` is taken, or a unique
index is violated. -/
def conflicts (w : World) (obj : shortURL) : Bool :=
  w.docs.any (fun d => d.ID == obj.ID) || w.indexes.any (violates w.docs obj)

/-- The function `insert`: `Insert(obj)`, rejected with a duplicate-key error when the
collection refuses the document. -/
def insert (w : World) (obj : shortURL) : World × Option GoError :=
  let (w1, f) := w.call (.insert obj)
  match f with
  | some e => (w1, some (.mgo e))
  | none =>
    if conflicts w obj then (w1, some (.mgo .DuplicateKey))
    else ({ w1 with docs := w.docs ++ [obj] }, none)

/-- The function `update`: `UpdateId(obj.ID, obj)`, replacing the whole document. -/
def update (w : World) (obj : shortURL) : World × Option GoError :=
  let (w1, f) := w.call (.updateId obj.ID obj)
  match f with
  | some e => (w1, some (.mgo e))
  | none =>
    if w.docs.any (fun d => d.ID == obj.ID) then
      ({ w1 with docs := replaceId obj.ID obj w.docs }, none)
    else (w1, some (.mgo .ErrNotFound))

/-- The function `ensureIndexes`: `EnsureIndex(mgo.Index{Key: []string{"url"}})`; the
field `Unique` keeps its zero value `false`. -/
def ensureIndexes (w : World) : World × Option GoError :=
  let index : Index := { Key := ["url"], Unique := false }
  let (w1, f) := w.call (.ensureIndex index)
  match f with
  | some e => (w1, some (.mgo e))
  | none => ({ w1 with indexes := if index ∈ w.indexes then w.indexes else w.indexes ++ [index] }, none)

/-! ## HTTP layer -/

/-- The type `url.Values`: a map from keys to value lists; the nil map is `[]`. -/
abbrev Values := List (GoString × List GoString)

/-- The method `Values.Get`: first value of the key, or the empty string. -/
def Values.Get (v : Values) (key : GoString) : GoString :=
  match v.lookup key with
  | some (x :: _) => x
  | _ => []

/-- The part of `http.Request` read by the handlers.  `Body` is the outcome of
`json.NewDecoder(r.Body).Decode(&sq)`: `none` when decoding returns an error. -/
structure Request where
  Method : String
  RequestURI : GoString
  Path : GoString
  Form : Values
  Body : Option shortenRequest
deriving DecidableEq, Repr

/-- Whether a byte is a hexadecimal digit (`ishex` of `net/url`). -/
def ishex (c : Nat) : Bool :=
  (48 ≤ c && c ≤ 57) || (97 ≤ c && c ≤ 102) || (65 ≤ c && c ≤ 70)

/-- Value of a hexadecimal digit (`unhex` of `net/url`). -/
def unhex (c : Nat) : Nat :=
  if 48 ≤ c ∧ c ≤ 57 then c - 48 else if 97 ≤ c ∧ c ≤ 102 then c - 87 else c - 55

/-- Whether `unescape` of `net/url` accepts the string in a mode other than host: every
`%` is followed by two hexadecimal digits. -/
def validEscapes : GoString → Bool
  | [] => true
  | c :: rest =>
    if c = 37 then
      match rest with
      | a :: b :: rest2 => ishex a && ishex b && validEscapes rest2
      | _ => false
    else validEscapes rest

/-- The decoding done by `unescape` of `net/url` in path mode: each `%XY` becomes the byte
it names.  On a string `validEscapes` refuses, `unescape` returns an error and the server
answers 400 without calling a handler; here such a tail is left as it is. -/
def unescape : GoString → GoString
  | [] => []
  | c :: rest =>
    if c = 37 then
      match rest with
      | a :: b :: rest2 => (16 * unhex a + unhex b) :: unescape rest2
      | _ => c :: rest
    else c :: unescape rest

/-- A request as the `net/http` server hands it to a handler, for a request target in
origin form (`/path?query`): `Path` is `r.URL.Path`, the decoded target up to the first
`?`; `Form` is populated only by `ParseForm` (or `FormValue`), which nothing in `main.go`
calls, so it is nil. -/
def serverRequest (method : String) (requestURI : GoString) (body : Option shortenRequest) :
    Request :=
  { Method := method, RequestURI := requestURI,
    Path := unescape (requestURI.takeWhile (fun c => c != 63)), Form := [], Body := body }

/-- What a handler does to the response writer. -/
inductive Response where
  | json (code : Nat) (data : Option shortURL)
  | redirect (location : GoString) (code : Nat)
  | nothing
  | aborted
deriving DecidableEq, Repr

/-- The function `writeResponse`. -/
def writeResponse (code : Nat) (data : Option shortURL) : Response := .json code data

def StatusOK : Nat := 200
def StatusTemporaryRedirect : Nat := 307
def StatusBadRequest : Nat := 400
def StatusNotFound : Nat := 404
def StatusMethodNotAllowed : Nat := 405

/-! ## `net/url`, `path` and `http.Redirect` -/

/-- Whether a byte is an ASCII letter. -/
def isLetter (c : Nat) : Bool := (97 ≤ c && c ≤ 122) || (65 ≤ c && c ≤ 90)

/-- Whether a byte is an ASCII digit. -/
def isDigit (c : Nat) : Bool := 48 ≤ c && c ≤ 57

/-- The scan of `getScheme` of `net/url` from byte `i` on: letters go on; a digit, `+`,
`-` or `.` goes on unless it is the first byte; `:` ends the scheme, and is an error
(`none`) as the first byte; any other byte means there is no scheme. -/
def getSchemeFrom (raw : GoString) : Nat → GoString → Option (GoString × GoString)
  | _, [] => some ([], raw)
  | i, c :: cs =>
    if isLetter c then getSchemeFrom raw (i + 1) cs
    else if isDigit c || c = 43 || c = 45 || c = 46 then
      if i = 0 then some ([], raw) else getSchemeFrom raw (i + 1) cs
    else if c = 58 then
      if i = 0 then none else some (raw.take i, cs)
    else some ([], raw)

/-- The function `getScheme` of `net/url`: the scheme and the rest after its colon. -/
def getScheme (raw : GoString) : Option (GoString × GoString) := getSchemeFrom raw 0 raw

/-- The function `stringContainsCTLByte` of `net/url`. -/
def stringContainsCTLByte (s : GoString) : Bool := s.any (fun b => b < 32 || b = 127)

/-- The function `validUserinfo` of `net/url`. -/
def validUserinfo (s : GoString) : Bool :=
  s.all (fun c => isLetter c || isDigit c ||
    [45, 46, 95, 58, 126, 33, 36, 38, 39, 40, 41, 42, 43, 44, 59, 61, 37, 64].contains c)

/-- Whether `parseAuthority` of `net/url` succeeds with an empty host: the authority is
empty, or it is a valid user-info part closed by its last `@`. -/
def authorityWithoutHost (authority : GoString) : Bool :=
  if authority.contains 64 then
    let userinfo := authority.dropLast
    authority.getLast? == some 64 && validUserinfo userinfo &&
      validEscapes (userinfo.takeWhile (fun c => c != 58)) &&
      validEscapes ((userinfo.dropWhile (fun c => c != 58)).drop 1)
  else authority == []

/-- Whether the target has a scheme in the eyes of `url.Parse`: `getScheme`, applied to
the part before the first `#`, finds a non-empty one. -/
def hasScheme (url : GoString) : Bool :=
  match getScheme (url.takeWhile (fun c => c != 35)) with
  | some (scheme, _) => scheme != []
  | none => false

/-- The test `err == nil && u.Scheme == "" && u.Host == ""` that `http.Redirect` makes on
`url.Parse(url)`: the target parses, and does so without a scheme and without a host. -/
def parsesRelative (url : GoString) : Bool :=
  let u := url.takeWhile (fun c => c != 35)
  let frag := (url.dropWhile (fun c => c != 35)).drop 1
  if stringContainsCTLByte u then false
  else if u = [42] then validEscapes frag
  else
    match getScheme u with
    | none => false
    | some (scheme, _) =>
      if scheme != [] then false
      else
        let rest := u.takeWhile (fun c => c != 63)
        if rest.head? != some 47 && (rest.takeWhile (fun c => c != 47)).contains 58 then false
        else if rest.take 2 == [47, 47] && rest.take 3 != [47, 47, 47] then
          authorityWithoutHost ((rest.drop 2).takeWhile (fun c => c != 47)) &&
            validEscapes ((rest.drop 2).dropWhile (fun c => c != 47)) && validEscapes frag
        else validEscapes rest && validEscapes frag

/-- One element of a path processed by `path.Clean`, on the stack of kept elements, last
first: empty and `.` elements are dropped, `..` removes the last kept element, or is kept
itself in an unrooted path with nothing to remove, and is dropped at the root. -/
def cleanStep (rooted : Bool) (st : List GoString) (e : GoString) : List GoString :=
  if e = [] ∨ e = [46] then st
  else if e = [46, 46] then
    match st with
    | top :: below => if top = [46, 46] then e :: st else below
    | [] => if rooted then [] else [e]
  else e :: st

/-- The function `path.Clean`. -/
def pathClean (p : GoString) : GoString :=
  if p = [] then [46]
  else
    let rooted := p.head? == some 47
    let body := [47].intercalate ((p.splitOn 47).foldl (cleanStep rooted) []).reverse
    if rooted then 47 :: body else if body = [] then [46] else body

/-- The directory part returned by `path.Split`: the path up to and with its last `/`. -/
def pathDir (p : GoString) : GoString := (p.reverse.dropWhile (fun c => c != 47)).reverse

/-- The target `http.Redirect` sends for `url`, before escaping: a target that parses
without scheme and host is made absolute against the directory of the request path and
cleaned, its query kept; any other target is left as it is. -/
def redirectTarget (oldpath url : GoString) : GoString :=
  if parsesRelative url then
    let oldpath := if oldpath = [] then [47] else oldpath
    let url := if url.head? != some 47 then pathDir oldpath ++ url else url
    let query := url.dropWhile (fun c => c != 63)
    let url := url.takeWhile (fun c => c != 63)
    let trailing := url.getLast? == some 47
    let url := pathClean url
    let url := if trailing && url.getLast? != some 47 then url ++ [47] else url
    url ++ query
  else url

/-- The function `hexEscapeNonASCII` of `net/http`: each byte from `0x80` up becomes `%`
and its two lower-case hexadecimal digits. -/
def hexEscapeNonASCII : GoString → GoString
  | [] => []
  | b :: bs =>
    if 128 ≤ b then 37 :: hexDigit (b / 16 % 16) :: hexDigit (b % 16) :: hexEscapeNonASCII bs
    else b :: hexEscapeNonASCII bs

/-- The function `http.Redirect`, as far as the status and the `Location` header go. -/
def Redirect (r : Request) (url : GoString) (code : Nat) : Response :=
  .redirect (hexEscapeNonASCII (redirectTarget r.Path url)) code

/-- The function `redirectHandler`.  `r.RequestURI[1:]` panics on an empty string
(`aborted`). -/
def redirectHandler (w : World) (r : Request) : World × Response :=
  match r.RequestURI with
  | [] => (w, .aborted)
  | _ :: uri =>
    match getURIDetailsByID w uri with
    | (w1, .error _) => (w1, writeResponse StatusNotFound none)
    | (w1, .ok ud) =>
      let ud := { ud with HitCount := wrapInt (ud.HitCount + 1) }
      let (w2, _) := update w1 ud
      (w2, Redirect r ud.URL StatusTemporaryRedirect)

/-- The allocation loop of `urlDetailsHandler`,
`for i := 0; i <= len(mdHash)-8; i++ { su.ID = mdHash[i : i+8]; ... }`,
with `n` the number of iterations left and `i` the loop variable; the loop is entered
with `n = len(mdHash) + 1 - 8`, leaves by `break` on the first insert without error, and
otherwise runs out with `su.ID` the last window tried. -/
def insertLoop (mdHash : GoString) : Nat → Nat → World → shortURL → World × shortURL
  | 0, _, w, su => (w, su)
  | n + 1, i, w, su =>
    let su := { su with ID := goSlice mdHash i (i + 8) }
    match insert w su with
    | (w1, none) => (w1, su)
    | (w1, some _) => insertLoop mdHash n (i + 1) w1 su

/-- The function `urlDetailsHandler`. -/
def urlDetailsHandler (w : World) (r : Request) : World × Response :=
  if r.Method = "GET" then
    let id := r.Form.Get (ascii "shortId")
    match getURIDetailsByID w id with
    | (w1, .error .errInvalidID) => (w1, writeResponse StatusBadRequest none)
    | (w1, .error _) => (w1, writeResponse StatusNotFound none)
    | (w1, .ok ud) => (w1, writeResponse StatusOK (some ud))
  else if r.Method = "POST" then
    match r.Body with
    | none => (w, writeResponse StatusBadRequest none)
    | some sq =>
      match getURIDetailsByURL w sq.URL with
      | (w1, .ok ud) => (w1, writeResponse StatusOK (some ud))
      | (w1, .error _) =>
        let su : shortURL := { ID := [], URL := sq.URL, HitCount := 0, Metadata := sq.Metadata }
        let mdHash := getMD5 sq.URL
        let (w2, su) := insertLoop mdHash (mdHash.length + 1 - 8) 0 w1 su
        (w2, writeResponse StatusOK (some su))
  else (w, .nothing)

/-- The function `loggingMiddleware`, without its timing log. -/
def loggingMiddleware (methods : List String) (next : World → Request → World × Response)
    (w : World) (r : Request) : World × Response :=
  if methods.contains r.Method then next w r else (w, writeResponse StatusMethodNotAllowed none)

/-! ## Vocabulary of the statements -/

/-- The record the allocation loop tries to insert at iteration `i` for the body `sq`:
identifier `mdHash[i : i+8]`, the caller's URL and metadata, hit count 0. -/
def candidate (sq : shortenRequest) (i : Nat) : shortURL :=
  { ID := goSlice (getMD5 sq.URL) i (i + 8), URL := sq.URL, HitCount := 0,
    Metadata := sq.Metadata }

/-- Outcome of `insert obj` made as the `n`-th coming store call, when the calls before
it leave the documents and indexes as they are: `none` is success. -/
def insertOutcome (w : World) (n : Nat) (obj : shortURL) : Option GoError :=
  (insert { w with faults := w.faults.drop n } obj).2

/-- The store answers every coming call from its documents: no failure is scheduled. -/
def Faithful (w : World) : Prop := ∀ f ∈ w.faults, f = none

/-- Every URL belongs to at most one document. -/
def UniqueURL (docs : List shortURL) : Prop := (docs.map (fun d => d.URL)).Nodup

/-- The document stored under an identifier, if any. -/
def stored (w : World) (id : GoString) : Option shortURL := w.docs.find? (fun d => d.ID == id)

/-- The request `GET /<id>` as received by `redirectHandler`. -/
def getRequest (id : GoString) : Request := serverRequest "GET" (ascii "/" ++ id) none

/-- The state after `n` consecutive requests `GET /<id>`. -/
def redirects (id : GoString) : Nat → World → World
  | 0, w => w
  | n + 1, w => redirects id n (redirectHandler w (getRequest id)).1

/-- The insert calls of the first `m` iterations, starting at window `i`. -/
def attemptCalls (d : GoString) (su : shortURL) (i m : Nat) : List StoreCall :=
  (List.range m).map (fun j => StoreCall.insert { su with ID := goSlice d (i + j) (i + j + 8) })

/-! ## Concrete inputs -/

/-- The URL of the end-to-end example; its digest is `c984d06aafbecf6bc55569f964148ea3`. -/
def exampleURL : GoString := ascii "https://example.com"

/-- The decoded body `{"url": "https://example.com"}`. -/
def exampleBody : shortenRequest := { URL := exampleURL, Metadata := none }

/-- The request `POST /shorten` carrying `exampleBody`. -/
def postExample : Request := serverRequest "POST" (ascii "/shorten") (some exampleBody)

/-- The index set of a running service: the one index made by `ensureIndexes`. -/
def serviceIndexes : List Index := [{ Key := ["url"], Unique := false }]

/-- An empty collection behind a store that answers every call. -/
def emptyWorld : World := { docs := [], indexes := serviceIndexes, faults := [], calls := [] }

/-- The 25 windows of the digest of `exampleURL`. -/
def exampleWindows : List String :=
  ["c984d06a", "984d06aa", "84d06aaf", "4d06aafb", "d06aafbe", "06aafbec", "6aafbecf",
   "aafbecf6", "afbecf6b", "fbecf6bc", "becf6bc5", "ecf6bc55", "cf6bc555", "f6bc5556",
   "6bc55569", "bc55569f", "c55569f9", "55569f96", "5569f964", "569f9641", "69f96414",
   "9f964148", "f964148e", "964148ea", "64148ea3"]

/-- A collection in which every window of the digest of `exampleURL` already identifies a
record of some other URL; the store answers every call. -/
def occupiedWorld : World :=
  { docs := exampleWindows.map
      (fun s => { ID := ascii s, URL := ascii "https://taken.example/" ++ ascii s,
                  HitCount := 0, Metadata := none }),
    indexes := serviceIndexes, faults := [], calls := [] }

/-- An empty collection behind a stub that answers the look-up, rejects the first two
insert attempts and accepts the third. -/
def stubWorld : World :=
  { docs := [], indexes := serviceIndexes,
    faults := [none, some .DuplicateKey, some .DuplicateKey, none], calls := [] }

/-- The collection after `exampleURL` was shortened once. -/
def shortenedWorld : World :=
  { docs := [{ ID := ascii "c984d06a", URL := exampleURL, HitCount := 0, Metadata := none }],
    indexes := serviceIndexes, faults := [], calls := [] }

/-- An empty collection behind a store whose first insert fails on a transient I/O
error; the look-up before it and every later call are answered. -/
def flakyInsertWorld : World :=
  { docs := [], indexes := serviceIndexes, faults := [none, some .Unavailable], calls := [] }

/-- The collection after `exampleURL` was shortened once, behind a store whose next call
fails on a transient I/O error. -/
def flakyLookupWorld : World :=
  { shortenedWorld with faults := [some .Unavailable] }

/-- An empty collection behind a store whose next call fails on a transient I/O error;
every later call is answered. -/
def flakyFirstCallWorld : World :=
  { docs := [], indexes := serviceIndexes, faults := [some .Unavailable], calls := [] }

/-- An empty collection behind a store that is unreachable for the next 26 calls. -/
def outageWorld : World :=
  { docs := [], indexes := serviceIndexes, faults := List.replicate 26 (some .Unavailable),
    calls := [] }

/-- The collection after `exampleURL` was shortened once, behind a store that answers
the next call and fails the one after on an I/O error. -/
def flakyUpdateWorld : World :=
  { shortenedWorld with faults := [none, some .Unavailable] }

/-- The decoded body `{"url": "example.com/page"}`, a URL without a scheme; its digest is
`12da3cb025145a7a114e3955040ba436`. -/
def relativeBody : shortenRequest := { URL := ascii "example.com/page", Metadata := none }

/-- The request `POST /shorten` carrying `relativeBody`. -/
def postRelative : Request := serverRequest "POST" (ascii "/shorten") (some relativeBody)

/-- The collection after `example.com/page` was shortened once. -/
def relativeWorld : World :=
  { docs := [{ ID := ascii "12da3cb0", URL := ascii "example.com/page", HitCount := 0,
               Metadata := none }],
    indexes := serviceIndexes, faults := [], calls := [] }

/-- A collection whose one record has reached the largest hit count a Go `int` holds. -/
def saturatedWorld : World :=
  { docs := [{ ID := ascii "c984d06a", URL := exampleURL, HitCount := 9223372036854775807,
               Metadata := none }],
    indexes := serviceIndexes, faults := [], calls := [] }

instance (w : World) : Decidable (Faithful w) := by unfold Faithful; infer_instance

instance (docs : List shortURL) : Decidable (UniqueURL docs) := by unfold UniqueURL; infer_instance

/-! ## Digest shape -/

theorem hexEncodeToString_length (bs : List Nat) :
    (hexEncodeToString bs).length = 2 * bs.length := by
  induction bs with
  | nil => rfl
  | cons b bs ih => simp [hexEncodeToString, ih]; omega

theorem md5Sum_length (data : List Nat) : (MD5.Sum data).length = 16 := by
  simp [MD5.Sum, MD5.le32]

theorem getMD5_length (url : GoString) : (getMD5 url).length = 32 := by
  simp [getMD5, hexEncodeToString_length, md5Sum_length]

theorem goSlice_length (s : GoString) (i : Nat) (h : i + 8 ≤ s.length) :
    (goSlice s i (i + 8)).length = 8 := by
  simp [goSlice]; omega

theorem candidate_ID_length (sq : shortenRequest) (i : Nat) (h : i ≤ 24) :
    (candidate sq i).ID.length = 8 := by
  have := getMD5_length sq.URL
  exact goSlice_length _ _ (by omega)

/-! ## Store calls -/

theorem tail_drop_eq (fs : List (Option MgoError)) (n : Nat) :
    fs.tail.drop n = fs.drop (n + 1) := by
  cases fs <;> simp

theorem insert_eq (w : World) (obj : shortURL) :
    insert w obj =
      (match insertOutcome w 0 obj with
       | none => ⟨w.docs ++ [obj], w.indexes, w.faults.tail, w.calls ++ [.insert obj]⟩
       | some _ => ⟨w.docs, w.indexes, w.faults.tail, w.calls ++ [.insert obj]⟩,
       insertOutcome w 0 obj) := by
  obtain ⟨docs, indexes, faults, calls⟩ := w
  simp only [insertOutcome, insert, World.call, List.drop_zero]
  cases hf : nextFault faults with
  | some e => simp
  | none =>
    by_cases hc : conflicts ⟨docs, indexes, faults, calls⟩ obj = true
    · simp [hc]
    · simp [hc]

theorem insertOutcome_succ (docs : List shortURL) (indexes : List Index)
    (faults : List (Option MgoError)) (calls calls2 : List StoreCall) (n : Nat) (obj : shortURL) :
    insertOutcome ⟨docs, indexes, faults.tail, calls2⟩ n obj
      = insertOutcome ⟨docs, indexes, faults, calls⟩ (n + 1) obj := by
  simp only [insertOutcome, insert, World.call, conflicts, tail_drop_eq]
  cases nextFault (List.drop (n + 1) faults) <;> simp
  split <;> simp

/-! ## The allocation loop -/

theorem attemptCalls_succ_left (d : GoString) (su : shortURL) (i m : Nat) :
    attemptCalls d su i (m + 1)
      = StoreCall.insert { su with ID := goSlice d i (i + 8) } :: attemptCalls d su (i + 1) m := by
  simp only [attemptCalls, List.range_succ_eq_map, List.map_cons, List.map_map, Nat.add_zero]
  congr 1
  apply List.map_congr_left
  intro j _
  simp only [Function.comp, Nat.succ_eq_add_one]
  have : i + (j + 1) = i + 1 + j := by omega
  rw [this]

theorem attemptCalls_length (d : GoString) (su : shortURL) (i m : Nat) :
    (attemptCalls d su i m).length = m := by
  simp [attemptCalls]

/-- When every one of the `n` remaining attempts is rejected, the loop performs all of
them, stores nothing and leaves `su` with the last window tried. -/
theorem insertLoop_all_rejected (d : GoString) (url : GoString) (meta : Metadata) :
    ∀ (n i : Nat) (id0 : GoString) (docs : List shortURL) (indexes : List Index)
      (faults : List (Option MgoError)) (calls : List StoreCall),
      (∀ j < n, insertOutcome ⟨docs, indexes, faults, calls⟩ j
          ⟨goSlice d (i + j) (i + j + 8), url, 0, meta⟩ ≠ none) →
      insertLoop d n i ⟨docs, indexes, faults, calls⟩ ⟨id0, url, 0, meta⟩
        = (⟨docs, indexes, faults.drop n, calls ++ attemptCalls d ⟨id0, url, 0, meta⟩ i n⟩,
           ⟨if n = 0 then id0 else goSlice d (i + n - 1) (i + n - 1 + 8), url, 0, meta⟩) := by
  intro n
  induction n with
  | zero => intro i id0 docs indexes faults calls _; simp [insertLoop, attemptCalls]
  | succ n ih =>
    intro i id0 docs indexes faults calls h
    have h0 := h 0 (Nat.succ_pos n)
    simp only [Nat.add_zero] at h0
    rw [insertLoop, insert_eq]
    cases ho : insertOutcome ⟨docs, indexes, faults, calls⟩ 0 ⟨goSlice d i (i + 8), url, 0, meta⟩ with
    | none => exact absurd ho h0
    | some e =>
      simp only []
      rw [ih (i + 1) (goSlice d i (i + 8)) docs indexes faults.tail]
      · rw [attemptCalls_succ_left, tail_drop_eq]
        simp only [List.append_assoc, List.singleton_append, Nat.succ_ne_zero, if_false]
        have e1 : i + (n + 1) - 1 = i + n := by omega
        refine Prod.ext ?_ ?_
        · simp only [attemptCalls]
        · simp only [e1]
          by_cases hn : n = 0
          · subst hn; simp
          · have e2 : i + 1 + n - 1 = i + n := by omega
            simp [hn, e2]
      · intro j hj
        rw [insertOutcome_succ docs indexes faults calls]
        have := h (j + 1) (by omega)
        have e3 : i + (j + 1) = i + 1 + j := by omega
        rw [e3] at this
        exact this

/-- When attempts `0 .. k-1` are rejected and attempt `k` is accepted, the loop performs
exactly `k + 1` attempts, stores the `k`-th candidate and returns it. -/
theorem insertLoop_first_accepted (d : GoString) (url : GoString) (meta : Metadata) :
    ∀ (k n i : Nat) (id0 : GoString) (docs : List shortURL) (indexes : List Index)
      (faults : List (Option MgoError)) (calls : List StoreCall),
      k < n →
      (∀ j < k, insertOutcome ⟨docs, indexes, faults, calls⟩ j
          ⟨goSlice d (i + j) (i + j + 8), url, 0, meta⟩ ≠ none) →
      insertOutcome ⟨docs, indexes, faults, calls⟩ k
          ⟨goSlice d (i + k) (i + k + 8), url, 0, meta⟩ = none →
      insertLoop d n i ⟨docs, indexes, faults, calls⟩ ⟨id0, url, 0, meta⟩
        = (⟨docs ++ [⟨goSlice d (i + k) (i + k + 8), url, 0, meta⟩], indexes,
            faults.drop (k + 1), calls ++ attemptCalls d ⟨id0, url, 0, meta⟩ i (k + 1)⟩,
           ⟨goSlice d (i + k) (i + k + 8), url, 0, meta⟩) := by
  intro k
  induction k with
  | zero =>
    intro n i id0 docs indexes faults calls hn _ hacc
    obtain ⟨n, rfl⟩ : ∃ m, n = m + 1 := ⟨n - 1, by omega⟩
    simp only [Nat.add_zero] at hacc
    rw [insertLoop, insert_eq, hacc, attemptCalls_succ_left]
    simp [attemptCalls]
  | succ k ih =>
    intro n i id0 docs indexes faults calls hn hrej hacc
    obtain ⟨n, rfl⟩ : ∃ m, n = m + 1 := ⟨n - 1, by omega⟩
    have h0 := hrej 0 (Nat.succ_pos k)
    simp only [Nat.add_zero] at h0
    rw [insertLoop, insert_eq]
    cases ho : insertOutcome ⟨docs, indexes, faults, calls⟩ 0 ⟨goSlice d i (i + 8), url, 0, meta⟩ with
    | none => exact absurd ho h0
    | some e =>
      simp only []
      have e3 : ∀ j, i + (j + 1) = i + 1 + j := by intro j; omega
      rw [ih n (i + 1) (goSlice d i (i + 8)) docs indexes faults.tail _ (by omega)]
      · rw [attemptCalls_succ_left d _ i (k + 1), tail_drop_eq, e3 k]
        simp [attemptCalls]
      · intro j hj
        rw [insertOutcome_succ docs indexes faults calls, ← e3 j]
        exact hrej (j + 1) (by omega)
      · rw [insertOutcome_succ docs indexes faults calls, ← e3 k]
        exact hacc

/-! ## The POST branch of `urlDetailsHandler` -/

theorem getURIDetailsByURL_eq (w : World) (url : GoString) :
    getURIDetailsByURL w url =
      (⟨w.docs, w.indexes, w.faults.tail, w.calls ++ [.findURL url]⟩,
       match nextFault w.faults with
       | some e => .error (.mgo e)
       | none =>
         match w.docs.find? (fun d => d.URL == url) with
         | some su => .ok su
         | none => .error (.mgo .ErrNotFound)) := by
  simp only [getURIDetailsByURL, findOne, World.call]
  cases nextFault w.faults with
  | some e => rfl
  | none => cases List.find? (fun d => d.URL == url) w.docs <;> rfl

theorem find_url_none (docs : List shortURL) (url : GoString) (h : ∀ d ∈ docs, d.URL ≠ url) :
    docs.find? (fun d => d.URL == url) = none := by
  rw [List.find?_eq_none]
  intro d hd
  simpa using h d hd

/-- A POST whose look-up by URL returns an error runs the allocation loop over the 25
windows of the digest and answers 200 with whatever record the loop leaves. -/
theorem post_lookup_error (w : World) (r : Request) (sq : shortenRequest) (e : GoError)
    (hm : r.Method = "POST") (hb : r.Body = some sq)
    (herr : (getURIDetailsByURL w sq.URL).2 = .error e) :
    urlDetailsHandler w r =
      ((insertLoop (getMD5 sq.URL) 25 0
          ⟨w.docs, w.indexes, w.faults.tail, w.calls ++ [.findURL sq.URL]⟩
          ⟨[], sq.URL, 0, sq.Metadata⟩).1,
       .json StatusOK (some (insertLoop (getMD5 sq.URL) 25 0
          ⟨w.docs, w.indexes, w.faults.tail, w.calls ++ [.findURL sq.URL]⟩
          ⟨[], sq.URL, 0, sq.Metadata⟩).2)) := by
  have hne : ¬ ("POST" = "GET") := by decide
  rw [getURIDetailsByURL_eq] at herr
  simp only [urlDetailsHandler, hm, hne, if_false, if_true, hb, getURIDetailsByURL_eq,
    getMD5_length, writeResponse]
  simp only [] at herr
  rw [herr]

theorem lookup_error_of_new (w : World) (url : GoString) (h : ∀ d ∈ w.docs, d.URL ≠ url) :
    ∃ e, (getURIDetailsByURL w url).2 = .error e := by
  rw [getURIDetailsByURL_eq, find_url_none _ _ h]
  cases nextFault w.faults with
  | some e => exact ⟨_, rfl⟩
  | none => exact ⟨_, rfl⟩

theorem attemptCalls_candidate (sq : shortenRequest) (id0 : GoString) (m : Nat) :
    attemptCalls (getMD5 sq.URL) ⟨id0, sq.URL, 0, sq.Metadata⟩ 0 m
      = (List.range m).map (fun j => StoreCall.insert (candidate sq j)) := by
  simp [attemptCalls, candidate]

/-- A POST whose look-up fails and all of whose 25 insert attempts are rejected. -/
theorem post_all_rejected (w : World) (r : Request) (sq : shortenRequest) (e : GoError)
    (hm : r.Method = "POST") (hb : r.Body = some sq)
    (herr : (getURIDetailsByURL w sq.URL).2 = .error e)
    (hrej : ∀ j < 25, insertOutcome w (j + 1) (candidate sq j) ≠ none) :
    urlDetailsHandler w r =
      (⟨w.docs, w.indexes, w.faults.drop 26,
        w.calls ++ StoreCall.findURL sq.URL
          :: (List.range 25).map (fun j => StoreCall.insert (candidate sq j))⟩,
       .json StatusOK (some (candidate sq 24))) := by
  rw [post_lookup_error w r sq e hm hb herr,
    insertLoop_all_rejected (getMD5 sq.URL) sq.URL sq.Metadata 25 0 [] w.docs w.indexes]
  · simp [attemptCalls_candidate, tail_drop_eq, candidate]
  · intro j hj
    have := hrej j hj
    rw [insertOutcome_succ w.docs w.indexes w.faults w.calls]
    simpa [candidate] using this

/-- A POST whose look-up fails and whose first accepted insert attempt is the `k`-th. -/
theorem post_first_accepted (w : World) (r : Request) (sq : shortenRequest) (e : GoError)
    (k : Nat) (hm : r.Method = "POST") (hb : r.Body = some sq)
    (herr : (getURIDetailsByURL w sq.URL).2 = .error e) (hk : k ≤ 24)
    (hrej : ∀ j < k, insertOutcome w (j + 1) (candidate sq j) ≠ none)
    (hacc : insertOutcome w (k + 1) (candidate sq k) = none) :
    urlDetailsHandler w r =
      (⟨w.docs ++ [candidate sq k], w.indexes, w.faults.drop (k + 2),
        w.calls ++ StoreCall.findURL sq.URL
          :: (List.range (k + 1)).map (fun j => StoreCall.insert (candidate sq j))⟩,
       .json StatusOK (some (candidate sq k))) := by
  rw [post_lookup_error w r sq e hm hb herr,
    insertLoop_first_accepted (getMD5 sq.URL) sq.URL sq.Metadata k 25 0 [] w.docs w.indexes _ _
      (by omega)]
  · simp [attemptCalls_candidate, tail_drop_eq, candidate]
  · intro j hj
    have := hrej j hj
    rw [insertOutcome_succ w.docs w.indexes w.faults w.calls]
    simpa [candidate] using this
  · rw [insertOutcome_succ w.docs w.indexes w.faults w.calls]
    simpa [candidate] using hacc

/-- A POST whose look-up fails either stores the first accepted candidate or, all 25
being rejected, stores nothing; it answers 200 with a record in both cases. -/
theorem post_error_cases (w : World) (r : Request) (sq : shortenRequest) (e : GoError)
    (hm : r.Method = "POST") (hb : r.Body = some sq)
    (herr : (getURIDetailsByURL w sq.URL).2 = .error e) :
    (∃ k, k ≤ 24 ∧ (∀ j < k, insertOutcome w (j + 1) (candidate sq j) ≠ none) ∧
        insertOutcome w (k + 1) (candidate sq k) = none ∧
        urlDetailsHandler w r =
          (⟨w.docs ++ [candidate sq k], w.indexes, w.faults.drop (k + 2),
            w.calls ++ StoreCall.findURL sq.URL
              :: (List.range (k + 1)).map (fun j => StoreCall.insert (candidate sq j))⟩,
           .json StatusOK (some (candidate sq k)))) ∨
    ((∀ j < 25, insertOutcome w (j + 1) (candidate sq j) ≠ none) ∧
        urlDetailsHandler w r =
          (⟨w.docs, w.indexes, w.faults.drop 26,
            w.calls ++ StoreCall.findURL sq.URL
              :: (List.range 25).map (fun j => StoreCall.insert (candidate sq j))⟩,
           .json StatusOK (some (candidate sq 24)))) := by
  by_cases hex : ∃ k, k < 25 ∧ insertOutcome w (k + 1) (candidate sq k) = none
  · left
    refine ⟨Nat.find hex, ?_, ?_, (Nat.find_spec hex).2, ?_⟩
    · have := (Nat.find_spec hex).1; omega
    · intro j hj hnone
      have hlt : j < 25 := by have := (Nat.find_spec hex).1; omega
      exact Nat.find_min hex hj ⟨hlt, hnone⟩
    · refine post_first_accepted w r sq e _ hm hb herr ?_ ?_ (Nat.find_spec hex).2
      · have := (Nat.find_spec hex).1; omega
      · intro j hj hnone
        have hlt : j < 25 := by have := (Nat.find_spec hex).1; omega
        exact Nat.find_min hex hj ⟨hlt, hnone⟩
  · right
    have hrej : ∀ j < 25, insertOutcome w (j + 1) (candidate sq j) ≠ none := by
      intro j hj hnone
      exact hex ⟨j, hj, hnone⟩
    exact ⟨hrej, post_all_rejected w r sq e hm hb herr hrej⟩

/-- A POST whose look-up is answered with a stored record returns it and stores nothing. -/
theorem post_found (w : World) (r : Request) (sq : shortenRequest) (ud : shortURL)
    (hm : r.Method = "POST") (hb : r.Body = some sq)
    (hf : nextFault w.faults = none)
    (hfind : w.docs.find? (fun d => d.URL == sq.URL) = some ud) :
    urlDetailsHandler w r =
      (⟨w.docs, w.indexes, w.faults.tail, w.calls ++ [.findURL sq.URL]⟩,
       .json StatusOK (some ud)) := by
  have hne : ¬ ("POST" = "GET") := by decide
  simp only [urlDetailsHandler, hm, hne, if_false, if_true, hb, getURIDetailsByURL_eq, hf, hfind,
    writeResponse]

/-! ## Allocation of identifiers (C1, C2) -/

/-- C1 (evaluation of the code where the claim fails).  With every one of the 25 windows
of the digest of `https://example.com` already identifying another record, `POST /shorten`
for that URL makes exactly 25 insert attempts, each rejected as a duplicate key, stores
nothing, and then answers 200 with a record carrying the last window `64148ea3`, an
identifier under which the store holds a record of a different URL.  No allocation failure
is reported. -/
theorem exhausted_allocation_answers_ok :
    urlDetailsHandler occupiedWorld postExample =
      (⟨occupiedWorld.docs, serviceIndexes, [],
        StoreCall.findURL exampleURL
          :: (List.range 25).map (fun j => StoreCall.insert (candidate exampleBody j))⟩,
       Response.json 200 (some ⟨ascii "64148ea3", exampleURL, 0, none⟩)) ∧
    (List.range 25).map (fun j => insertOutcome occupiedWorld (j + 1) (candidate exampleBody j))
      = List.replicate 25 (some (.mgo .DuplicateKey)) ∧
    stored occupiedWorld (ascii "64148ea3")
      = some ⟨ascii "64148ea3", ascii "https://taken.example/64148ea3", 0, none⟩ := by
  set_option maxRecDepth 1000000 in decide

/-- C2.  For a POST whose URL is not in the store, if the insert attempts for windows
`0 .. k-1` of the 32-character digest are rejected and the attempt for window `k ≤ 24` is
accepted, the handler performs the look-up and then exactly the `k + 1` insert attempts
for windows `0, 1, .., k` in that order, stores the `k`-th candidate and answers 200 with
it: identifier the 8-character window `d[k, k+8)`, the caller's URL and metadata, hit
count 0. -/
theorem shorten_allocates_first_accepted_window (w : World) (r : Request)
    (sq : shortenRequest) (k : Nat)
    (hm : r.Method = "POST") (hb : r.Body = some sq)
    (hnew : ∀ d ∈ w.docs, d.URL ≠ sq.URL) (hk : k ≤ 24)
    (hrej : ∀ j < k, insertOutcome w (j + 1) (candidate sq j) ≠ none)
    (hacc : insertOutcome w (k + 1) (candidate sq k) = none) :
    (getMD5 sq.URL).length = 32 ∧
    urlDetailsHandler w r =
      (⟨w.docs ++ [candidate sq k], w.indexes, w.faults.drop (k + 2),
        w.calls ++ StoreCall.findURL sq.URL
          :: (List.range (k + 1)).map (fun j => StoreCall.insert (candidate sq j))⟩,
       Response.json 200 (some (candidate sq k))) ∧
    candidate sq k = ⟨goSlice (getMD5 sq.URL) k (k + 8), sq.URL, 0, sq.Metadata⟩ ∧
    (candidate sq k).ID.length = 8 := by
  obtain ⟨e, he⟩ := lookup_error_of_new w sq.URL hnew
  exact ⟨getMD5_length _, post_first_accepted w r sq e k hm hb he hk hrej hacc, rfl,
    candidate_ID_length sq k hk⟩

/-- C2 at a stub store that rejects the first two window attempts: the identifier is the
third window `84d06aaf` of the digest of `https://example.com`. -/
theorem shorten_allocates_first_accepted_window_witness :
    (candidate exampleBody 2).ID = ascii "84d06aaf" ∧
    ((getMD5 exampleBody.URL).length = 32 ∧
    urlDetailsHandler stubWorld postExample =
      (⟨stubWorld.docs ++ [candidate exampleBody 2], stubWorld.indexes,
        stubWorld.faults.drop (2 + 2),
        stubWorld.calls ++ StoreCall.findURL exampleBody.URL
          :: (List.range (2 + 1)).map (fun j => StoreCall.insert (candidate exampleBody j))⟩,
       Response.json 200 (some (candidate exampleBody 2))) ∧
    candidate exampleBody 2
      = ⟨goSlice (getMD5 exampleBody.URL) 2 (2 + 8), exampleBody.URL, 0, exampleBody.Metadata⟩ ∧
    (candidate exampleBody 2).ID.length = 8) :=
  ⟨by set_option maxRecDepth 1000000 in decide,
   shorten_allocates_first_accepted_window stubWorld postExample exampleBody 2 rfl rfl
    (by decide) (by decide) (by decide) (by decide)⟩

/-! ## Repeated shortening over a faithful store (C3) -/

theorem nextFault_of_all_none (fs : List (Option MgoError)) (h : ∀ f ∈ fs, f = none) :
    nextFault fs = none := by
  cases fs with
  | nil => rfl
  | cons f fs => exact h f (List.mem_cons_self f fs)

theorem nextFault_drop_of_all_none (fs : List (Option MgoError)) (n : Nat)
    (h : ∀ f ∈ fs, f = none) : nextFault (fs.drop n) = none :=
  nextFault_of_all_none _ (fun f hf => h f (List.mem_of_mem_drop hf))

theorem conflicts_congr (docs : List shortURL) (indexes : List Index)
    (f1 f2 : List (Option MgoError)) (c1 c2 : List StoreCall) (a b : shortURL)
    (hid : a.ID = b.ID) (hurl : a.URL = b.URL) :
    conflicts ⟨docs, indexes, f1, c1⟩ a = conflicts ⟨docs, indexes, f2, c2⟩ b := by
  have hfv : ∀ k, fieldValue a k = fieldValue b k := by
    intro k; simp [fieldValue, hid, hurl]
  have hmap : ∀ ks : List String, ks.map (fieldValue a) = ks.map (fieldValue b) := by
    intro ks; exact List.map_congr_left (fun k _ => hfv k)
  have hv : violates docs a = violates docs b := by
    funext ix
    simp only [violates, hmap]
  simp only [conflicts, hid, hv]

theorem insertOutcome_faithful (w : World) (n : Nat) (obj : shortURL) (hf : Faithful w) :
    insertOutcome w n obj = if conflicts w obj then some (.mgo .DuplicateKey) else none := by
  have hn := nextFault_drop_of_all_none w.faults n hf
  simp only [insertOutcome, insert, World.call, hn]
  have hc : conflicts { w with faults := w.faults.drop n } obj = conflicts w obj :=
    conflicts_congr w.docs w.indexes _ _ _ _ obj obj rfl rfl
  rw [hc]
  split <;> rfl

/-- C3.  Over a store that answers every call from its documents, two consecutive
`POST /shorten` requests for the same URL (whatever their metadata) both answer 200 with a
record, the two records have the same identifier, and the second request leaves the
documents, hence every stored record and hit count, exactly as the first left them. -/
theorem shorten_twice_same_identifier (w : World) (r1 r2 : Request)
    (sq1 sq2 : shortenRequest) (hf : Faithful w)
    (hm1 : r1.Method = "POST") (hb1 : r1.Body = some sq1)
    (hm2 : r2.Method = "POST") (hb2 : r2.Body = some sq2)
    (hurl : sq2.URL = sq1.URL) :
    ∃ a b, (urlDetailsHandler w r1).2 = Response.json 200 (some a) ∧
      (urlDetailsHandler (urlDetailsHandler w r1).1 r2).2 = Response.json 200 (some b) ∧
      b.ID = a.ID ∧
      (urlDetailsHandler (urlDetailsHandler w r1).1 r2).1.docs = (urlDetailsHandler w r1).1.docs := by
  have hnf : nextFault w.faults = none := nextFault_of_all_none _ hf
  cases hfind : w.docs.find? (fun d => d.URL == sq1.URL) with
  | some ud =>
    have h1 := post_found w r1 sq1 ud hm1 hb1 hnf hfind
    have hnf2 : nextFault w.faults.tail = none :=
      nextFault_of_all_none _ (fun f hmem => hf f (List.mem_of_mem_tail hmem))
    have h2 := post_found ⟨w.docs, w.indexes, w.faults.tail, w.calls ++ [.findURL sq1.URL]⟩ r2 sq2
      ud hm2 hb2 hnf2 (by rw [hurl]; exact hfind)
    refine ⟨ud, ud, ?_, ?_, rfl, ?_⟩
    · rw [h1]; rfl
    · rw [h1, h2]; rfl
    · rw [h1, h2]
  | none =>
    have herr : (getURIDetailsByURL w sq1.URL).2 = .error (.mgo .ErrNotFound) := by
      rw [getURIDetailsByURL_eq, hnf, hfind]
    rcases post_error_cases w r1 sq1 _ hm1 hb1 herr with ⟨k, hk, -, -, h1⟩ | ⟨hrej, h1⟩
    · have hnf2 : nextFault (w.faults.drop (k + 2)) = none :=
        nextFault_drop_of_all_none _ _ hf
      have hfind2 : (w.docs ++ [candidate sq1 k]).find? (fun d => d.URL == sq2.URL)
          = some (candidate sq1 k) := by
        rw [hurl, List.find?_append, hfind]
        simp [candidate]
      have h2 := post_found ⟨w.docs ++ [candidate sq1 k], w.indexes, w.faults.drop (k + 2),
        w.calls ++ StoreCall.findURL sq1.URL
          :: (List.range (k + 1)).map (fun j => StoreCall.insert (candidate sq1 j))⟩ r2 sq2
        (candidate sq1 k) hm2 hb2 hnf2 hfind2
      refine ⟨candidate sq1 k, candidate sq1 k, ?_, ?_, rfl, ?_⟩
      · rw [h1]; rfl
      · rw [h1, h2]; rfl
      · rw [h1, h2]
    · have hf2 : Faithful ⟨w.docs, w.indexes, w.faults.drop 26,
          w.calls ++ StoreCall.findURL sq1.URL
            :: (List.range 25).map (fun j => StoreCall.insert (candidate sq1 j))⟩ :=
        fun f hmem => hf f (List.mem_of_mem_drop hmem)
      have herr2 : (getURIDetailsByURL ⟨w.docs, w.indexes, w.faults.drop 26,
          w.calls ++ StoreCall.findURL sq1.URL
            :: (List.range 25).map (fun j => StoreCall.insert (candidate sq1 j))⟩ sq2.URL).2
          = .error (.mgo .ErrNotFound) := by
        rw [getURIDetailsByURL_eq, nextFault_of_all_none _ hf2, hurl, hfind]
      have hrej2 : ∀ j < 25, insertOutcome ⟨w.docs, w.indexes, w.faults.drop 26,
          w.calls ++ StoreCall.findURL sq1.URL
            :: (List.range 25).map (fun j => StoreCall.insert (candidate sq1 j))⟩ (j + 1)
          (candidate sq2 j) ≠ none := by
        intro j hj
        have h := hrej j hj
        rw [insertOutcome_faithful _ _ _ hf] at h
        rw [insertOutcome_faithful _ _ _ hf2,
          conflicts_congr w.docs w.indexes _ w.faults _ w.calls (candidate sq2 j)
            (candidate sq1 j) (by simp [candidate, hurl]) (by simp [candidate, hurl])]
        exact h
      have h2 := post_all_rejected _ r2 sq2 _ hm2 hb2 herr2 hrej2
      refine ⟨candidate sq1 24, candidate sq2 24, ?_, ?_, ?_, ?_⟩
      · rw [h1]; rfl
      · rw [h1, h2]; rfl
      · simp [candidate, hurl]
      · rw [h1, h2]

/-- C3 on the empty collection: both requests for `https://example.com` answer with the
identifier `c984d06a`. -/
theorem shorten_twice_same_identifier_witness :
    ∃ a b, (urlDetailsHandler emptyWorld postExample).2 = Response.json 200 (some a) ∧
      (urlDetailsHandler (urlDetailsHandler emptyWorld postExample).1 postExample).2
        = Response.json 200 (some b) ∧
      b.ID = a.ID ∧
      (urlDetailsHandler (urlDetailsHandler emptyWorld postExample).1 postExample).1.docs
        = (urlDetailsHandler emptyWorld postExample).1.docs :=
  shorten_twice_same_identifier emptyWorld postExample postExample exampleBody exampleBody
    (by decide) rfl rfl rfl rfl rfl

/-! ## Store errors on the POST path (C4, C5, C9) -/

theorem calls_index (pre : List StoreCall) (c : StoreCall) (f : Nat → StoreCall) (m j : Nat)
    (h : j < m) : (pre ++ c :: (List.range m).map f)[pre.length + 1 + j]? = some (f j) := by
  rw [List.getElem?_append_right (by omega)]
  have e : pre.length + 1 + j - pre.length = j + 1 := by omega
  rw [e, List.getElem?_cons_succ, List.getElem?_map, List.getElem?_range h]
  rfl

/-- C4 (counterexample).  On an empty collection whose first insert fails with a transient
I/O error, not a duplicate key, `POST /shorten` for `https://example.com` does not surface
a store error: it goes on to the second window, stores the record under `984d06aa` and
answers 200. -/
theorem transient_insert_failure_advances_window :
    insertOutcome flakyInsertWorld 1 (candidate exampleBody 0) = some (.mgo .Unavailable) ∧
    urlDetailsHandler flakyInsertWorld postExample =
      (⟨[⟨ascii "984d06aa", exampleURL, 0, none⟩], serviceIndexes, [],
        [.findURL exampleURL, .insert ⟨ascii "c984d06a", exampleURL, 0, none⟩,
         .insert ⟨ascii "984d06aa", exampleURL, 0, none⟩]⟩,
       Response.json 200 (some ⟨ascii "984d06aa", exampleURL, 0, none⟩)) := by
  set_option maxRecDepth 1000000 in decide

/-- C4 (amended).  For a POST whose URL is not in the store, if the insert attempts for
windows `0 .. k-1` are rejected and the attempt for window `k < 24` fails with a store
error `e` of any kind, duplicate key or not, then the handler does not stop on `e`: its
next store call is the insert attempt for window `k + 1`, and when that attempt is
accepted the record is stored under window `k + 1` and returned with status 200. -/
theorem insert_failure_of_any_kind_advances (w : World) (r : Request) (sq : shortenRequest)
    (k : Nat) (e : MgoError)
    (hm : r.Method = "POST") (hb : r.Body = some sq)
    (hnew : ∀ d ∈ w.docs, d.URL ≠ sq.URL) (hk : k < 24)
    (hrej : ∀ j < k, insertOutcome w (j + 1) (candidate sq j) ≠ none)
    (hfail : insertOutcome w (k + 1) (candidate sq k) = some (.mgo e)) :
    (urlDetailsHandler w r).1.calls[w.calls.length + 1 + (k + 1)]?
      = some (StoreCall.insert (candidate sq (k + 1))) ∧
    (insertOutcome w (k + 2) (candidate sq (k + 1)) = none →
      urlDetailsHandler w r =
        (⟨w.docs ++ [candidate sq (k + 1)], w.indexes, w.faults.drop (k + 3),
          w.calls ++ StoreCall.findURL sq.URL
            :: (List.range (k + 2)).map (fun j => StoreCall.insert (candidate sq j))⟩,
         Response.json 200 (some (candidate sq (k + 1))))) := by
  obtain ⟨e0, he⟩ := lookup_error_of_new w sq.URL hnew
  have hrej2 : ∀ j < k + 1, insertOutcome w (j + 1) (candidate sq j) ≠ none := by
    intro j hj
    rcases Nat.lt_or_eq_of_le (Nat.le_of_lt_succ hj) with hlt | heq
    · exact hrej j hlt
    · rw [heq, hfail]; simp
  constructor
  · rcases post_error_cases w r sq e0 hm hb he with ⟨k1, _, _, hacc1, h1⟩ | ⟨_, h1⟩
    · have hlt : k < k1 := by
        by_contra hge
        exact hrej2 k1 (by omega) hacc1
      rw [h1]
      exact calls_index _ _ (fun j => StoreCall.insert (candidate sq j)) _ _ (by omega)
    · rw [h1]
      exact calls_index _ _ (fun j => StoreCall.insert (candidate sq j)) _ _ (by omega)
  · intro hacc
    exact post_first_accepted w r sq e0 (k + 1) hm hb he (by omega) hrej2 hacc

/-- C4 (amended) at the store whose first insert fails with an I/O error. -/
theorem insert_failure_of_any_kind_advances_witness :
    insertOutcome flakyInsertWorld (0 + 2) (candidate exampleBody (0 + 1)) = none ∧
    ((urlDetailsHandler flakyInsertWorld postExample).1.calls[flakyInsertWorld.calls.length + 1 + (0 + 1)]?
      = some (StoreCall.insert (candidate exampleBody (0 + 1))) ∧
    (insertOutcome flakyInsertWorld (0 + 2) (candidate exampleBody (0 + 1)) = none →
      urlDetailsHandler flakyInsertWorld postExample =
        (⟨flakyInsertWorld.docs ++ [candidate exampleBody (0 + 1)], flakyInsertWorld.indexes,
          flakyInsertWorld.faults.drop (0 + 3),
          flakyInsertWorld.calls ++ StoreCall.findURL exampleBody.URL
            :: (List.range (0 + 2)).map (fun j => StoreCall.insert (candidate exampleBody j))⟩,
         Response.json 200 (some (candidate exampleBody (0 + 1)))))) :=
  ⟨by decide,
   insert_failure_of_any_kind_advances flakyInsertWorld postExample exampleBody 0 .Unavailable
    rfl rfl (by decide) (by decide) (by decide) (by decide)⟩

/-- C5 (counterexample).  The index made by `ensureIndexes` is not unique.  With
`https://example.com` stored once and the look-up failing on a transient I/O error,
`POST /shorten` for that URL stores a second record for it, under the next window. -/
theorem failed_lookup_duplicates_url :
    (ensureIndexes ⟨[], [], [], []⟩).1.indexes = flakyLookupWorld.indexes ∧
    UniqueURL flakyLookupWorld.docs ∧
    (urlDetailsHandler flakyLookupWorld postExample).1.docs =
      [⟨ascii "c984d06a", exampleURL, 0, none⟩, ⟨ascii "984d06aa", exampleURL, 0, none⟩] ∧
    ¬ UniqueURL (urlDetailsHandler flakyLookupWorld postExample).1.docs := by
  set_option maxRecDepth 1000000 in decide

theorem getURIDetailsByID_docs (w : World) (id : GoString) :
    (getURIDetailsByID w id).1.docs = w.docs := by
  simp only [getURIDetailsByID, findOne, World.call]
  split
  · rfl
  · cases nextFault w.faults with
    | some e => rfl
    | none => cases List.find? (fun d => d.ID == id) w.docs <;> rfl

/-- C5 (amended).  If every URL belongs to at most one record and the store answers the
next call, which for a POST is the look-up by URL, from its documents, then after any
request to `/shorten`, whatever the outcomes of the insert attempts, every URL again
belongs to at most one record. -/
theorem shorten_preserves_unique_url (w : World) (r : Request)
    (hu : UniqueURL w.docs) (hl : nextFault w.faults = none) :
    UniqueURL (urlDetailsHandler w r).1.docs := by
  by_cases hget : r.Method = "GET"
  · have hd := getURIDetailsByID_docs w (r.Form.Get (ascii "shortId"))
    simp only [urlDetailsHandler, hget, if_true]
    rcases hres : getURIDetailsByID w (r.Form.Get (ascii "shortId")) with ⟨w1, res⟩
    rw [hres] at hd
    simp only [] at hd
    rcases res with e | ud
    · cases e <;> simpa [hd] using hu
    · simpa [hd] using hu
  · by_cases hpost : r.Method = "POST"
    · cases hb : r.Body with
      | none => simpa [urlDetailsHandler, hget, hpost, hb] using hu
      | some sq =>
        cases hfind : w.docs.find? (fun d => d.URL == sq.URL) with
        | some ud =>
          rw [post_found w r sq ud hpost hb hl hfind]
          exact hu
        | none =>
          have herr : (getURIDetailsByURL w sq.URL).2 = .error (.mgo .ErrNotFound) := by
            rw [getURIDetailsByURL_eq, hl, hfind]
          rcases post_error_cases w r sq _ hpost hb herr with ⟨k, _, _, _, h1⟩ | ⟨_, h1⟩
          · rw [h1]
            rw [List.find?_eq_none] at hfind
            simp only [UniqueURL, List.map_append, List.map_cons, List.map_nil] at hu ⊢
            rw [List.nodup_append]
            refine ⟨hu, List.nodup_singleton _, ?_⟩
            intro a ha hb2
            simp only [List.mem_singleton, candidate] at hb2
            rw [List.mem_map] at ha
            obtain ⟨d, hd, rfl⟩ := ha
            have := hfind d hd
            simp only [beq_iff_eq] at this
            exact this hb2
          · rw [h1]
            exact hu
    · simpa [urlDetailsHandler, hget, hpost] using hu

/-- C5 (amended) on the collection holding `https://example.com` once, look-up answered. -/
theorem shorten_preserves_unique_url_witness :
    UniqueURL (urlDetailsHandler shortenedWorld postExample).1.docs :=
  shorten_preserves_unique_url shortenedWorld postExample (by decide) (by decide)

/-- C9 (counterexample).  With the store unreachable for the whole request, the look-up of
`https://example.com` fails with an I/O error, not with not-found; `POST /shorten` treats
the URL as not yet shortened, makes the 25 insert attempts and answers 200 with a record
that was never stored. -/
theorem lookup_outage_answers_ok :
    (getURIDetailsByURL outageWorld exampleURL).2 = .error (.mgo .Unavailable) ∧
    urlDetailsHandler outageWorld postExample =
      (⟨[], serviceIndexes, [],
        StoreCall.findURL exampleURL
          :: (List.range 25).map (fun j => StoreCall.insert (candidate exampleBody j))⟩,
       Response.json 200 (some ⟨ascii "64148ea3", exampleURL, 0, none⟩)) := by
  set_option maxRecDepth 1000000 in decide

/-- C9 (amended).  For every POST with a well-formed body, if the look-up by URL fails with
a store error `e` of any kind, not-found or not, the handler treats the URL as not yet
shortened: its next store call is the insert attempt for the first window, and whenever
the attempts for windows `0 .. k-1` are rejected and the attempt for a window `k ≤ 24` is
accepted, it makes exactly these `k + 1` attempts, stores the `k`-th candidate and answers
200 with it.  The failed look-up surfaces no error in any run in which a window is
accepted. -/
theorem lookup_error_of_any_kind_allocates (w : World) (r : Request) (sq : shortenRequest)
    (e : MgoError) (hm : r.Method = "POST") (hb : r.Body = some sq)
    (hfail : nextFault w.faults = some e) :
    (getURIDetailsByURL w sq.URL).2 = .error (.mgo e) ∧
    (urlDetailsHandler w r).1.calls[w.calls.length + 1 + 0]?
      = some (StoreCall.insert (candidate sq 0)) ∧
    ∀ k, k ≤ 24 → (∀ j < k, insertOutcome w (j + 1) (candidate sq j) ≠ none) →
      insertOutcome w (k + 1) (candidate sq k) = none →
      urlDetailsHandler w r =
        (⟨w.docs ++ [candidate sq k], w.indexes, w.faults.drop (k + 2),
          w.calls ++ StoreCall.findURL sq.URL
            :: (List.range (k + 1)).map (fun j => StoreCall.insert (candidate sq j))⟩,
         Response.json 200 (some (candidate sq k))) := by
  have herr : (getURIDetailsByURL w sq.URL).2 = .error (.mgo e) := by
    rw [getURIDetailsByURL_eq, hfail]
  refine ⟨herr, ?_, ?_⟩
  · rcases post_error_cases w r sq _ hm hb herr with ⟨k1, _, _, _, h1⟩ | ⟨_, h1⟩
    · rw [h1]
      exact calls_index _ _ (fun j => StoreCall.insert (candidate sq j)) _ _ (by omega)
    · rw [h1]
      exact calls_index _ _ (fun j => StoreCall.insert (candidate sq j)) _ _ (by omega)
  · intro k hk hrej hacc
    exact post_first_accepted w r sq _ k hm hb herr hk hrej hacc

/-- C9 (amended) at the store that holds `https://example.com` under its first window and
whose look-up fails with an I/O error: the first window is rejected as a duplicate, the
second is accepted, and the record stored under `984d06aa` is returned with status 200. -/
theorem lookup_error_of_any_kind_allocates_witness :
    (getURIDetailsByURL flakyLookupWorld exampleBody.URL).2 = .error (.mgo .Unavailable) ∧
    (urlDetailsHandler flakyLookupWorld postExample).1.calls[flakyLookupWorld.calls.length + 1 + 0]?
      = some (StoreCall.insert (candidate exampleBody 0)) ∧
    insertOutcome flakyLookupWorld 1 (candidate exampleBody 0) = some (.mgo .DuplicateKey) ∧
    urlDetailsHandler flakyLookupWorld postExample =
      (⟨flakyLookupWorld.docs ++ [candidate exampleBody 1], flakyLookupWorld.indexes,
        flakyLookupWorld.faults.drop (1 + 2),
        flakyLookupWorld.calls ++ StoreCall.findURL exampleBody.URL
          :: (List.range (1 + 1)).map (fun j => StoreCall.insert (candidate exampleBody j))⟩,
       Response.json 200 (some (candidate exampleBody 1))) :=
  have h := lookup_error_of_any_kind_allocates flakyLookupWorld postExample exampleBody
    .Unavailable rfl rfl (by decide)
  ⟨h.1, h.2.1, by set_option maxRecDepth 1000000 in decide,
   h.2.2 1 (by decide) (by set_option maxRecDepth 1000000 in decide)
     (by set_option maxRecDepth 1000000 in decide)⟩

/-! ## Redirects (C6, C7, C10) -/

theorem ascii_slash : ascii "/" = [47] := by decide

theorem wrapInt_of_range (x : Int) (hlo : minInt ≤ x) (hhi : x ≤ maxInt) : wrapInt x = x := by
  simp only [wrapInt, minInt, maxInt, intBits] at *
  norm_num at *
  omega

theorem getURIDetailsByID_eq (w : World) (id : GoString) (hid : id.length = 8) :
    getURIDetailsByID w id =
      (⟨w.docs, w.indexes, w.faults.tail, w.calls ++ [.findID id]⟩,
       match nextFault w.faults with
       | some e => .error (.mgo e)
       | none =>
         match stored w id with
         | some su => .ok su
         | none => .error (.mgo .ErrNotFound)) := by
  simp only [getURIDetailsByID, hid, findOne, World.call, stored, ne_eq, not_true_eq_false,
    if_false]
  cases nextFault w.faults with
  | some e => rfl
  | none => cases List.find? (fun d => d.ID == id) w.docs <;> rfl

theorem find_replaceId (id : GoString) (obj rec : shortURL) (hobj : obj.ID = id) :
    ∀ docs : List shortURL, docs.find? (fun d => d.ID == id) = some rec →
      (replaceId id obj docs).find? (fun d => d.ID == id) = some obj := by
  intro docs
  induction docs with
  | nil => intro h; simp at h
  | cons d ds ih =>
    intro h
    by_cases hd : d.ID = id
    · simp [replaceId, hd, hobj]
    · simp only [replaceId, hd, if_false]
      rw [List.find?_cons_of_neg _ (by simpa using hd)] at h ⊢
      exact ih h

theorem stored_ID (w : World) (id : GoString) (rec : shortURL) (h : stored w id = some rec) :
    rec.ID = id := by
  have := List.find?_some h
  simpa using this

theorem stored_any (w : World) (id : GoString) (rec : shortURL) (h : stored w id = some rec) :
    w.docs.any (fun d => d.ID == id) = true := by
  rw [List.any_eq_true]
  exact ⟨rec, List.mem_of_find?_eq_some h, by simpa using stored_ID w id rec h⟩

/-- One `GET /<id>` for a stored 8-byte identifier, look-up and update both answered. -/
theorem redirect_step (w : World) (id : GoString) (rec : shortURL)
    (hid : id.length = 8) (hst : stored w id = some rec)
    (h0 : nextFault w.faults = none) (h1 : nextFault w.faults.tail = none) :
    redirectHandler w (getRequest id) =
      (⟨replaceId id { rec with HitCount := wrapInt (rec.HitCount + 1) } w.docs, w.indexes,
        w.faults.tail.tail,
        w.calls ++ [.findID id] ++
          [.updateId id { rec with HitCount := wrapInt (rec.HitCount + 1) }]⟩,
       Redirect (getRequest id) rec.URL StatusTemporaryRedirect) := by
  have hrid := stored_ID w id rec hst
  have hany := stored_any w id rec hst
  simp only [redirectHandler, getRequest, serverRequest, ascii_slash, List.singleton_append,
    getURIDetailsByID_eq w id hid, h0, hst, update, World.call, h1, hrid, hany, if_true]

/-- C6 (counterexample).  A record whose hit count is the largest Go `int`,
`9223372036854775807`, is left by one redirect with hit count `-9223372036854775808`,
not with that count plus one. -/
theorem redirect_hit_count_wraps :
    stored saturatedWorld (ascii "c984d06a")
      = some ⟨ascii "c984d06a", exampleURL, 9223372036854775807, none⟩ ∧
    redirectHandler saturatedWorld (getRequest (ascii "c984d06a")) =
      (⟨[⟨ascii "c984d06a", exampleURL, -9223372036854775808, none⟩], serviceIndexes, [],
        [.findID (ascii "c984d06a"),
         .updateId (ascii "c984d06a") ⟨ascii "c984d06a", exampleURL, -9223372036854775808, none⟩]⟩,
       .redirect exampleURL 307) ∧
    stored (redirectHandler saturatedWorld (getRequest (ascii "c984d06a"))).1 (ascii "c984d06a")
      ≠ some ⟨ascii "c984d06a", exampleURL, 9223372036854775807 + 1, none⟩ := by
  set_option maxRecDepth 1000000 in decide

/-- C6 (amended).  If an 8-byte identifier `id` maps to a record with hit count `h`, the
store answers every call, and `h + n` is still a Go `int`, then after `n` consecutive
requests `GET /<id>` the store maps `id` to that record with hit count exactly `h + n`;
for `n = 1` this is `h + 1`, and from a fresh record (`h = 0`) the count is `n`. -/
theorem redirects_add_hits (id : GoString) (hid : id.length = 8) :
    ∀ (n : Nat) (w : World) (rec : shortURL), stored w id = some rec → Faithful w →
      minInt ≤ rec.HitCount → rec.HitCount + n ≤ maxInt →
      stored (redirects id n w) id = some { rec with HitCount := rec.HitCount + n } := by
  intro n
  induction n with
  | zero => intro w rec hst _ _ _; simpa [redirects] using hst
  | succ n ih =>
    intro w rec hst hf hlo hhi
    have h0 : nextFault w.faults = none := nextFault_of_all_none _ hf
    have h1 : nextFault w.faults.tail = none :=
      nextFault_of_all_none _ (fun f hmem => hf f (List.mem_of_mem_tail hmem))
    have hw : wrapInt (rec.HitCount + 1) = rec.HitCount + 1 := by
      apply wrapInt_of_range
      · omega
      · push_cast at hhi; omega
    have hrid := stored_ID w id rec hst
    rw [redirects, redirect_step w id rec hid hst h0 h1, hw]
    have hst2 : stored ⟨replaceId id { rec with HitCount := rec.HitCount + 1 } w.docs, w.indexes,
        w.faults.tail.tail,
        w.calls ++ [.findID id] ++ [.updateId id { rec with HitCount := rec.HitCount + 1 }]⟩ id
        = some { rec with HitCount := rec.HitCount + 1 } :=
      find_replaceId id { rec with HitCount := rec.HitCount + 1 } rec hrid w.docs hst
    have hf2 : Faithful ⟨replaceId id { rec with HitCount := rec.HitCount + 1 } w.docs, w.indexes,
        w.faults.tail.tail,
        w.calls ++ [.findID id] ++ [.updateId id { rec with HitCount := rec.HitCount + 1 }]⟩ :=
      fun f hmem => hf f (List.mem_of_mem_tail (List.mem_of_mem_tail hmem))
    have := ih _ _ hst2 hf2 (by simp only []; omega) (by simp only []; push_cast at hhi; omega)
    rw [this]
    simp only [Option.some.injEq, shortURL.mk.injEq, true_and, and_true]
    push_cast
    ring

/-- C6 (amended) on a fresh record: two redirects leave hit count 2. -/
theorem redirects_add_hits_witness :
    stored (redirects (ascii "c984d06a") 2 shortenedWorld) (ascii "c984d06a")
      = some { (⟨ascii "c984d06a", exampleURL, 0, none⟩ : shortURL) with
          HitCount := (0 : Int) + (2 : Nat) } :=
  redirects_add_hits (ascii "c984d06a") (by decide) 2 shortenedWorld
    ⟨ascii "c984d06a", exampleURL, 0, none⟩ (by decide) (by decide) (by decide) (by decide)

/-- C7 (counterexample).  `GET /abc`, whose identifier has length 3, is answered 404, the
very response given for the well-formed but absent identifier `abcdefgh`, and not 400. -/
theorem redirect_malformed_id_answers_404 :
    redirectHandler emptyWorld (getRequest (ascii "abc")) = (emptyWorld, Response.json 404 none) ∧
    (redirectHandler emptyWorld (getRequest (ascii "abc"))).2 ≠ Response.json 400 none ∧
    (redirectHandler emptyWorld (getRequest (ascii "abcdefgh"))).2
      = (redirectHandler emptyWorld (getRequest (ascii "abc"))).2 := by
  decide

/-- C7 (amended).  For every request `GET /<id>` whose `id` does not have length exactly
8, `getURIDetailsByID` returns `errInvalidID`, an error no store call returns, and makes no
store call; `redirectHandler` answers 404, as it does for an absent identifier, and leaves
the store and its call log untouched. -/
theorem redirect_malformed_id_not_found_no_query (w : World) (r : Request) (id : GoString)
    (hlen : id.length ≠ 8) (huri : r.RequestURI = ascii "/" ++ id) :
    getURIDetailsByID w id = (w, .error .errInvalidID) ∧
    redirectHandler w r = (w, Response.json 404 none) := by
  have hg : getURIDetailsByID w id = (w, .error .errInvalidID) := by
    simp [getURIDetailsByID, hlen]
  refine ⟨hg, ?_⟩
  simp only [redirectHandler, huri, ascii_slash, List.singleton_append, hg, writeResponse,
    StatusNotFound]

/-- C7 (amended) at `GET /abc`. -/
theorem redirect_malformed_id_not_found_no_query_witness :
    getURIDetailsByID shortenedWorld (ascii "abc") = (shortenedWorld, .error .errInvalidID) ∧
    redirectHandler shortenedWorld (getRequest (ascii "abc"))
      = (shortenedWorld, Response.json 404 none) :=
  redirect_malformed_id_not_found_no_query shortenedWorld (getRequest (ascii "abc"))
    (ascii "abc") (by decide) rfl

theorem parsesRelative_of_hasScheme (url : GoString) (h : hasScheme url = true) :
    parsesRelative url = false := by
  unfold hasScheme at h
  unfold parsesRelative
  simp only []
  split
  · rfl
  · split
    · rename_i hstar
      rw [hstar] at h
      simp [getScheme, getSchemeFrom, isLetter, isDigit] at h
    · cases hg : getScheme (List.takeWhile (fun c => c != 35) url) with
      | none => rfl
      | some p =>
        obtain ⟨scheme, rest⟩ := p
        rw [hg] at h
        simp only [] at h
        simp only [h, if_true]

theorem hexEscapeNonASCII_of_ascii (s : GoString) (h : ∀ b ∈ s, b < 128) :
    hexEscapeNonASCII s = s := by
  induction s with
  | nil => rfl
  | cons b bs ih =>
    have hb : ¬ 128 ≤ b := by have := h b (List.mem_cons_self b bs); omega
    simp only [hexEscapeNonASCII, hb, if_false]
    rw [ih (fun c hc => h c (List.mem_cons_of_mem b hc))]

/-- C10 (counterexample).  The service stores the scheme-less URL `example.com/page`
as submitted, under `12da3cb0`; `GET /12da3cb0` is then answered with a 307 redirect to
`/example.com/page`, the target made absolute against the request path, not to the stored
URL. -/
theorem redirect_rewrites_schemeless_target :
    (urlDetailsHandler emptyWorld postRelative).1.docs = relativeWorld.docs ∧
    stored relativeWorld (ascii "12da3cb0")
      = some ⟨ascii "12da3cb0", ascii "example.com/page", 0, none⟩ ∧
    (redirectHandler relativeWorld (getRequest (ascii "12da3cb0"))).2
      = Response.redirect (ascii "/example.com/page") 307 ∧
    (redirectHandler relativeWorld (getRequest (ascii "12da3cb0"))).2
      ≠ Response.redirect (ascii "example.com/page") 307 := by
  set_option maxRecDepth 1000000 in decide

/-- C10 (amended).  For every 8-byte identifier `id` under which the store holds a record
with target URL `t`, the look-up being answered, `GET /<id>` is answered with status 307
by `http.Redirect` called on `t`, whatever the update does: nothing is assumed about the
failure schedule after the look-up, so the update call may succeed or fail with any
error.  When `t` has a scheme and only ASCII bytes, the redirect is to `t` itself. -/
theorem redirect_issued_whatever_update_does (w : World) (r : Request) (id : GoString)
    (rec : shortURL) (hid : id.length = 8) (huri : r.RequestURI = ascii "/" ++ id)
    (hst : stored w id = some rec) (hl : nextFault w.faults = none) :
    (redirectHandler w r).2 = Redirect r rec.URL 307 ∧
    (hasScheme rec.URL = true → (∀ b ∈ rec.URL, b < 128) →
      (redirectHandler w r).2 = Response.redirect rec.URL 307) := by
  have h1 : (redirectHandler w r).2 = Redirect r rec.URL 307 := by
    simp only [redirectHandler, huri, ascii_slash, List.singleton_append,
      getURIDetailsByID_eq w id hid, hl, hst, StatusTemporaryRedirect]
  refine ⟨h1, ?_⟩
  intro hs hascii
  rw [h1]
  have ht : redirectTarget r.Path rec.URL = rec.URL := by
    simp [redirectTarget, parsesRelative_of_hasScheme _ hs]
  simp only [Redirect, ht, hexEscapeNonASCII_of_ascii _ hascii]

/-- C10 (amended) at a store whose update fails on an I/O error: the redirect to
`https://example.com` is issued and the hit count stays 0. -/
theorem redirect_issued_whatever_update_does_witness :
    (hasScheme exampleURL = true ∧ ∀ b ∈ exampleURL, b < 128) ∧
    (redirectHandler flakyUpdateWorld (getRequest (ascii "c984d06a"))).2
      = Response.redirect exampleURL 307 :=
  ⟨by decide,
   (redirect_issued_whatever_update_does flakyUpdateWorld (getRequest (ascii "c984d06a"))
    (ascii "c984d06a") ⟨ascii "c984d06a", exampleURL, 0, none⟩ (by decide) rfl (by decide)
    (by decide)).2 (by decide) (by decide)⟩

/-- At the store whose second call fails, the update call of the redirect does fail. -/
theorem flaky_update_fails :
    redirectHandler flakyUpdateWorld (getRequest (ascii "c984d06a")) =
      (⟨flakyUpdateWorld.docs, serviceIndexes, [],
        [.findID (ascii "c984d06a"),
         .updateId (ascii "c984d06a") ⟨ascii "c984d06a", exampleURL, 1, none⟩]⟩,
       Response.redirect exampleURL 307) ∧
    (update (getURIDetailsByID flakyUpdateWorld (ascii "c984d06a")).1
      ⟨ascii "c984d06a", exampleURL, 1, none⟩).2 = some (.mgo .Unavailable) := by
  set_option maxRecDepth 1000000 in decide

/-! ## Look-up by identifier on `/shorten` (C8) -/

/-- The GET branch answers 400 to every request the server hands over, whatever its
query string: `r.Form` is nil, so `r.Form.Get("shortId")` is the empty string. -/
theorem get_shorten_as_served (w : World) (uri : GoString) (body : Option shortenRequest) :
    urlDetailsHandler w (serverRequest "GET" uri body) = (w, Response.json 400 none) := by
  simp [urlDetailsHandler, serverRequest, Values.Get, getURIDetailsByID, writeResponse,
    StatusBadRequest]

/-- What the GET branch does with the identifier it reads from `r.Form`, the look-up
being answered: 400 when its length is not 8, 404 when no record is stored under it,
200 with the record otherwise. -/
theorem get_shorten_of_form (w : World) (r : Request) (id : GoString)
    (hm : r.Method = "GET") (hform : r.Form.Get (ascii "shortId") = id)
    (hl : nextFault w.faults = none) :
    (urlDetailsHandler w r).2 =
      if id.length ≠ 8 then Response.json 400 none
      else match stored w id with
        | none => Response.json 404 none
        | some ud => Response.json 200 (some ud) := by
  by_cases hlen : id.length = 8
  · simp only [urlDetailsHandler, hm, if_true, hform, getURIDetailsByID_eq w id hlen, hl, hlen,
      ne_eq, not_true_eq_false, if_false]
    cases stored w id <;> rfl
  · simp [urlDetailsHandler, hm, hform, getURIDetailsByID, hlen, writeResponse, StatusBadRequest]

/-- C8 (evaluation of the code where the claim fails).  With a record stored under the
8-byte identifier `c984d06a`, the request `GET /shorten?shortId=c984d06a` is answered 400
without any store call, where the claim has 200 with the record; had the form been
parsed, the same handler would answer 200 with the record. -/
theorem get_shorten_ignores_query :
    stored shortenedWorld (ascii "c984d06a") = some ⟨ascii "c984d06a", exampleURL, 0, none⟩ ∧
    urlDetailsHandler shortenedWorld
        (serverRequest "GET" (ascii "/shorten?shortId=c984d06a") none)
      = (shortenedWorld, Response.json 400 none) ∧
    (urlDetailsHandler shortenedWorld
        { serverRequest "GET" (ascii "/shorten?shortId=c984d06a") none with
          Form := [(ascii "shortId", [ascii "c984d06a"])] }).2
      = Response.json 200 (some ⟨ascii "c984d06a", exampleURL, 0, none⟩) := by
  decide

end UrlShortener
